import Mathlib

/-!
Verification of the Spartan core: a shallow embedding of the numeric
kernels (fuzzy-set operations, similarity metrics, gradient update), the
agent-model registry lifecycle, and the foreign-call boundary, together
with theorems settling the specification's claims about them.

Buffers of IEEE doubles are embedded as Lean lists.  The element-wise
kernels are embedded parametrically in the per-element operation (the
hardware `max_pd`/`min_pd`/... lane operation and its scalar counterpart
apply the same function to each element), so the batched-equals-scalar
results hold for every choice of element operation; the metric kernels,
whose results involve square roots and division, are embedded over the
real numbers.  C `int` lengths are embedded as `Int`.  The primary
remaining-count formulation of the loops agrees with the source's
32-bit index arithmetic exactly on the domain where the guard
subtraction `arrayLength - 4` does not overflow `int`
(`arrayLength > INT_MIN + 3`, which covers every in-bounds length and
all of the moderately negative ones); for the deep-negative lengths
where that subtraction overflows, a second family of definitions
(`...I32`) models the source's `int` arithmetic explicitly with a
two's-complement wrap `% 2^32`, exposing that the batched loop's guard
then fires and memory is accessed.
-/

namespace Spartan

/-! ### Element-wise kernels (SpartanFuzzyMath.cpp, SpartanReinforcement.cpp)

Every element-wise kernel in the source has the same two-loop shape:

    int elementIndex = 0;
    for (; elementIndex <= arrayLength - 4; elementIndex += 4) { ...4 lanes... }
    for (; elementIndex < arrayLength; ++elementIndex)        { ...scalar... }

`chunk2`/`chunkTail2` embed that shape for the binary kernels (target
combined with a read-only source), `chunk1`/`chunkTail1` for the unary
ones.  The remaining loop bound `arrayLength - elementIndex` is carried
as the `Int` argument `n`; the guards `4 ≤ n` and `1 ≤ n` translate the
source's `elementIndex <= arrayLength - 4` and
`elementIndex < arrayLength`.  Because `arrayLength` is a C `int`, the
subtraction `arrayLength - 4` overflows for
`arrayLength ≤ INT_MIN + 3`; this formulation is therefore exact only
for `arrayLength > INT_MIN + 3` (in particular for every `arrayLength ≥ 0`,
the domain of the kernel-correctness theorems below).  The `...I32`
definitions further down model the 32-bit guard arithmetic itself and
are used where the deep-negative domain matters.
A buffer shorter than `n` would be an out-of-bounds access in the source
(undefined behavior); the embedding then leaves the rest untouched, and
every theorem below carries the in-bounds hypothesis `n.toNat ≤ length`. -/

/-- Scalar tail loop of the binary element-wise kernels: while `1 ≤ n`
remain, store `f target[i] source[i]` and advance one element. -/
def chunkTail2 {α : Type} (f : α → α → α) (t s : List α) (n : Int) : List α :=
  if 1 ≤ n then
    match t, s with
    | t0 :: t', s0 :: s' => f t0 s0 :: chunkTail2 f t' s' (n - 1)
    | _, _ => t
  else t

/-- Batched loop of the binary element-wise kernels: while `4 ≤ n` remain,
load four lanes from target and source, store the four lane results, and
advance four elements; then fall through to the scalar tail loop. -/
def chunk2 {α : Type} (f : α → α → α) (t s : List α) (n : Int) : List α :=
  if 4 ≤ n then
    match t, s with
    | t0 :: t1 :: t2 :: t3 :: t', s0 :: s1 :: s2 :: s3 :: s' =>
        f t0 s0 :: f t1 s1 :: f t2 s2 :: f t3 s3 :: chunk2 f t' s' (n - 4)
    | _, _ => t
  else chunkTail2 f t s n

/-- Scalar tail loop of the unary element-wise kernels. -/
def chunkTail1 {α : Type} (g : α → α) (t : List α) (n : Int) : List α :=
  if 1 ≤ n then
    match t with
    | t0 :: t' => g t0 :: chunkTail1 g t' (n - 1)
    | _ => t
  else t

/-- Batched loop of the unary element-wise kernels. -/
def chunk1 {α : Type} (g : α → α) (t : List α) (n : Int) : List α :=
  if 4 ≤ n then
    match t with
    | t0 :: t1 :: t2 :: t3 :: t' =>
        g t0 :: g t1 :: g t2 :: g t3 :: chunk1 g t' (n - 4)
    | _ => t
  else chunkTail1 g t n

/-- `FuzzySetOps::unionSets`: `target[i] = max(target[i], source[i])`,
batched four lanes at a time (`_mm256_max_pd`) with a scalar tail
(`std::max`).  The per-element maximum operation is the parameter
`fmax`. -/
def unionSets {α : Type} (fmax : α → α → α) (targetSet sourceSet : List α)
    (arrayLength : Int) : List α :=
  chunk2 fmax targetSet sourceSet arrayLength

/-- `FuzzySetOps::intersectSets`: `target[i] = min(target[i], source[i])`. -/
def intersectSets {α : Type} (fmin : α → α → α) (targetSet sourceSet : List α)
    (arrayLength : Int) : List α :=
  chunk2 fmin targetSet sourceSet arrayLength

/-- `FuzzySetOps::complementSet`: `target[i] = 1.0 - target[i]`, with the
constant-one vector `simdIdentityValue` embedded as the parameter `one`
and the subtraction as `fsub`. -/
def complementSet {α : Type} (fsub : α → α → α) (one : α) (targetSet : List α)
    (arrayLength : Int) : List α :=
  chunk1 (fun x => fsub one x) targetSet arrayLength

/-- `FuzzyModifiers::applyConcentration`: `target[i] = target[i] * target[i]`. -/
def applyConcentration {α : Type} (fmul : α → α → α) (targetSet : List α)
    (arrayLength : Int) : List α :=
  chunk1 (fun x => fmul x x) targetSet arrayLength

/-- `FuzzyModifiers::applyDilation`: `target[i] = sqrt(target[i])`, the
square root (`_mm256_sqrt_pd` / `std::sqrt`) being the parameter `fsqrt`. -/
def applyDilation {α : Type} (fsqrt : α → α) (targetSet : List α)
    (arrayLength : Int) : List α :=
  chunk1 fsqrt targetSet arrayLength

/-- `GradientOps::applyRemorseUpdate` (SpartanReinforcement.cpp): the
adjustment factor `learningRate * remorse` is precomputed, and both the
batched loop (`weightDelta = adjustmentFactor * features;
updatedWeights = currentWeights + weightDelta`) and the scalar tail
(`weights[i] += adjustmentFactor * features[i]`) store
`weights[i] + adjustmentFactor * features[i]`, so the shared two-loop
shape is instantiated with that element operation. -/
def applyRemorseUpdate (weights features : List ℚ) (remorse learningRate : ℚ)
    (arrayLength : Int) : List ℚ :=
  let adjustmentFactor := learningRate * remorse
  chunk2 (fun w f => w + adjustmentFactor * f) weights features arrayLength

/-! ### Scalar reference semantics (from the spec)

The spec's scalar element-by-element definition of the in-place kernels:
the first `m` elements of the target are replaced by the element
operation applied pointwise, the rest are untouched. -/

/-- Spec-side scalar semantics of a binary in-place kernel over the first
`m` elements. -/
def scalarMap2 {α : Type} (f : α → α → α) (t s : List α) (m : Nat) : List α :=
  List.zipWith f (t.take m) (s.take m) ++ t.drop m

/-- Spec-side scalar semantics of a unary in-place kernel over the first
`m` elements. -/
def scalarMap1 {α : Type} (g : α → α) (t : List α) (m : Nat) : List α :=
  (t.take m).map g ++ t.drop m

/-! ### Similarity metrics (SpartanMetrics.cpp)

`VectorMetrics::cosineSimilarity` and `VectorMetrics::fuzzyJaccard` are
read-only reductions.  Each keeps a 256-bit accumulator per reduced
quantity (`_mm256_setzero_pd` initialised), adds four lanes at a time in
the batched loop, sums the four lanes of each accumulator left to right,
finishes with a scalar tail loop, and applies the degenerate-input guard
before dividing.  Double arithmetic is embedded over `ℝ`. -/

/-- A 256-bit accumulator register holding four double lanes. -/
structure Lane4 where
  l0 : ℝ
  l1 : ℝ
  l2 : ℝ
  l3 : ℝ

/-- `_mm256_setzero_pd`. -/
def Lane4.zero : Lane4 := ⟨0, 0, 0, 0⟩

/-- The horizontal lane sum `lanes[0] + lanes[1] + lanes[2] + lanes[3]`
(left associated, as in the source). -/
def Lane4.hsum (v : Lane4) : ℝ :=
  v.l0 + v.l1 + v.l2 + v.l3

/-- State at exit of the batched loop of `cosineSimilarity`: the three
lane accumulators plus the unprocessed suffixes of both vectors and the
remaining element count for the tail loop. -/
structure CosSimdState where
  dotAcc : Lane4
  magAAcc : Lane4
  magBAcc : Lane4
  restA : List ℝ
  restB : List ℝ
  restN : Int

/-- Batched loop of `cosineSimilarity`: while `4 ≤ n` remain, add
`a[i+k] * b[i+k]`, `a[i+k] * a[i+k]` and `b[i+k] * b[i+k]` into lane `k`
of the dot-product and the two squared-magnitude accumulators. -/
def cosSimdLoop (a b : List ℝ) (n : Int) (dAcc mA mB : Lane4) : CosSimdState :=
  if 4 ≤ n then
    match a, b with
    | a0 :: a1 :: a2 :: a3 :: a', b0 :: b1 :: b2 :: b3 :: b' =>
        cosSimdLoop a' b' (n - 4)
          ⟨dAcc.l0 + a0 * b0, dAcc.l1 + a1 * b1, dAcc.l2 + a2 * b2, dAcc.l3 + a3 * b3⟩
          ⟨mA.l0 + a0 * a0, mA.l1 + a1 * a1, mA.l2 + a2 * a2, mA.l3 + a3 * a3⟩
          ⟨mB.l0 + b0 * b0, mB.l1 + b1 * b1, mB.l2 + b2 * b2, mB.l3 + b3 * b3⟩
    | _, _ => ⟨dAcc, mA, mB, a, b, n⟩
  else ⟨dAcc, mA, mB, a, b, n⟩

/-- Scalar tail loop of `cosineSimilarity`, continuing the three scalar
reductions on the remaining elements. -/
def cosTailLoop (a b : List ℝ) (n : Int) (dot mA mB : ℝ) : ℝ × ℝ × ℝ :=
  if 1 ≤ n then
    match a, b with
    | x :: a', y :: b' => cosTailLoop a' b' (n - 1) (dot + x * y) (mA + x * x) (mB + y * y)
    | _, _ => (dot, mA, mB)
  else (dot, mA, mB)

open Classical in
/-- `VectorMetrics::cosineSimilarity`: batched loop, lane sums, tail
loop; returns `0.0` when either squared magnitude equals `0.0`, else
`dotProduct / sqrt(firstMagnitudeSquared * secondMagnitudeSquared)`. -/
noncomputable def cosineSimilarity (firstVector secondVector : List ℝ)
    (arrayLength : Int) : ℝ :=
  let st := cosSimdLoop firstVector secondVector arrayLength Lane4.zero Lane4.zero Lane4.zero
  let r := cosTailLoop st.restA st.restB st.restN st.dotAcc.hsum st.magAAcc.hsum st.magBAcc.hsum
  if r.2.1 = 0 ∨ r.2.2 = 0 then 0
  else r.1 / Real.sqrt (r.2.1 * r.2.2)

/-- State at exit of the batched loop of `fuzzyJaccard`. -/
structure JacSimdState where
  interAcc : Lane4
  unionAcc : Lane4
  restA : List ℝ
  restB : List ℝ
  restN : Int

/-- Batched loop of `fuzzyJaccard`: while `4 ≤ n` remain, add
`min(a[i+k], b[i+k])` and `max(a[i+k], b[i+k])` into lane `k` of the
intersection and union accumulators. -/
def jacSimdLoop (a b : List ℝ) (n : Int) (iAcc uAcc : Lane4) : JacSimdState :=
  if 4 ≤ n then
    match a, b with
    | a0 :: a1 :: a2 :: a3 :: a', b0 :: b1 :: b2 :: b3 :: b' =>
        jacSimdLoop a' b' (n - 4)
          ⟨iAcc.l0 + min a0 b0, iAcc.l1 + min a1 b1, iAcc.l2 + min a2 b2, iAcc.l3 + min a3 b3⟩
          ⟨uAcc.l0 + max a0 b0, uAcc.l1 + max a1 b1, uAcc.l2 + max a2 b2, uAcc.l3 + max a3 b3⟩
    | _, _ => ⟨iAcc, uAcc, a, b, n⟩
  else ⟨iAcc, uAcc, a, b, n⟩

/-- Scalar tail loop of `fuzzyJaccard`. -/
def jacTailLoop (a b : List ℝ) (n : Int) (interSum unionSum : ℝ) : ℝ × ℝ :=
  if 1 ≤ n then
    match a, b with
    | x :: a', y :: b' => jacTailLoop a' b' (n - 1) (interSum + min x y) (unionSum + max x y)
    | _, _ => (interSum, unionSum)
  else (interSum, unionSum)

open Classical in
/-- `VectorMetrics::fuzzyJaccard`: batched loop, lane sums, tail loop;
returns `1.0` when the union sum equals `0.0`, else
`intersectionSum / unionSum`. -/
noncomputable def fuzzyJaccard (firstVector secondVector : List ℝ)
    (arrayLength : Int) : ℝ :=
  let st := jacSimdLoop firstVector secondVector arrayLength Lane4.zero Lane4.zero
  let r := jacTailLoop st.restA st.restB st.restN st.interAcc.hsum st.unionAcc.hsum
  if r.2 = 0 then 1
  else r.1 / r.2

/-- Spec-side dot product `dot(a, b)` over the first `m` elements. -/
noncomputable def dotSpec (a b : List ℝ) (m : Nat) : ℝ :=
  (List.zipWith (· * ·) (a.take m) (b.take m)).sum

/-- Spec-side squared magnitude `sumSq(a)` over the first `m` elements. -/
noncomputable def sumSqSpec (a : List ℝ) (m : Nat) : ℝ :=
  ((a.take m).map (fun x => x * x)).sum

/-- Spec-side fuzzy-intersection sum `sum(min(a[i], b[i]))` over the
first `m` elements. -/
noncomputable def interSpec (a b : List ℝ) (m : Nat) : ℝ :=
  (List.zipWith min (a.take m) (b.take m)).sum

/-- Spec-side fuzzy-union sum `sum(max(a[i], b[i]))` over the first `m`
elements. -/
noncomputable def unionSpec (a b : List ℝ) (m : Nat) : ℝ :=
  (List.zipWith max (a.take m) (b.take m)).sum

/-! ### The kernels with explicit 32-bit index arithmetic

`arrayLength` and `elementIndex` are C `int`s.  The batched loop guard
`elementIndex <= arrayLength - 4` computes `arrayLength - 4` in 32-bit
signed arithmetic, which overflows for `arrayLength ≤ INT_MIN + 3`
(undefined behavior in C++; every mainstream target exhibits the
two's-complement wrap, under which `INT_MIN - 4` becomes `2^31 - 4`,
the guard fires at `elementIndex = 0`, and the batched loop loads and
stores memory).  The definitions below carry `arrayLength` and
`elementIndex` separately, exactly as the source does, and wrap every
arithmetic step with `wrap32`; the tail guard
`elementIndex < arrayLength` is a plain comparison and needs no wrap.
Recursion is structural on the target buffer, so the embedding stops
where the source would run off the buffer (undefined behavior), as in
the primary definitions. -/

/-- Two's-complement wrap to 32 bits: the value a C `int` holds after an
overflowing arithmetic operation on every mainstream target
(`2147483648 = 2^31`, `4294967296 = 2^32`). -/
def wrap32 (x : Int) : Int :=
  (x + 2147483648) % 4294967296 - 2147483648

/-- Scalar tail loop of a binary kernel with explicit 32-bit index. -/
def chunkTail2I32 {α : Type} (f : α → α → α) (t s : List α)
    (arrayLength elementIndex : Int) : List α :=
  if elementIndex < arrayLength then
    match t, s with
    | t0 :: t', s0 :: s' =>
        f t0 s0 :: chunkTail2I32 f t' s' arrayLength (wrap32 (elementIndex + 1))
    | _, _ => t
  else t

/-- Batched loop of a binary kernel with explicit 32-bit index: the
guard subtraction `arrayLength - 4` and the index step
`elementIndex + 4` are computed in 32-bit arithmetic. -/
def chunk2I32 {α : Type} (f : α → α → α) (t s : List α)
    (arrayLength elementIndex : Int) : List α :=
  if elementIndex ≤ wrap32 (arrayLength - 4) then
    match t, s with
    | t0 :: t1 :: t2 :: t3 :: t', s0 :: s1 :: s2 :: s3 :: s' =>
        f t0 s0 :: f t1 s1 :: f t2 s2 :: f t3 s3 ::
          chunk2I32 f t' s' arrayLength (wrap32 (elementIndex + 4))
    | _, _ => t
  else chunkTail2I32 f t s arrayLength elementIndex

/-- Scalar tail loop of a unary kernel with explicit 32-bit index. -/
def chunkTail1I32 {α : Type} (g : α → α) (t : List α)
    (arrayLength elementIndex : Int) : List α :=
  if elementIndex < arrayLength then
    match t with
    | t0 :: t' => g t0 :: chunkTail1I32 g t' arrayLength (wrap32 (elementIndex + 1))
    | _ => t
  else t

/-- Batched loop of a unary kernel with explicit 32-bit index. -/
def chunk1I32 {α : Type} (g : α → α) (t : List α)
    (arrayLength elementIndex : Int) : List α :=
  if elementIndex ≤ wrap32 (arrayLength - 4) then
    match t with
    | t0 :: t1 :: t2 :: t3 :: t' =>
        g t0 :: g t1 :: g t2 :: g t3 ::
          chunk1I32 g t' arrayLength (wrap32 (elementIndex + 4))
    | _ => t
  else chunkTail1I32 g t arrayLength elementIndex

/-- `FuzzySetOps::unionSets` with 32-bit index arithmetic. -/
def unionSetsI32 {α : Type} (fmax : α → α → α) (targetSet sourceSet : List α)
    (arrayLength : Int) : List α :=
  chunk2I32 fmax targetSet sourceSet arrayLength 0

/-- `FuzzySetOps::intersectSets` with 32-bit index arithmetic. -/
def intersectSetsI32 {α : Type} (fmin : α → α → α) (targetSet sourceSet : List α)
    (arrayLength : Int) : List α :=
  chunk2I32 fmin targetSet sourceSet arrayLength 0

/-- `FuzzySetOps::complementSet` with 32-bit index arithmetic. -/
def complementSetI32 {α : Type} (fsub : α → α → α) (one : α) (targetSet : List α)
    (arrayLength : Int) : List α :=
  chunk1I32 (fun x => fsub one x) targetSet arrayLength 0

/-- `FuzzyModifiers::applyConcentration` with 32-bit index arithmetic. -/
def applyConcentrationI32 {α : Type} (fmul : α → α → α) (targetSet : List α)
    (arrayLength : Int) : List α :=
  chunk1I32 (fun x => fmul x x) targetSet arrayLength 0

/-- `FuzzyModifiers::applyDilation` with 32-bit index arithmetic. -/
def applyDilationI32 {α : Type} (fsqrt : α → α) (targetSet : List α)
    (arrayLength : Int) : List α :=
  chunk1I32 fsqrt targetSet arrayLength 0

/-- `GradientOps::applyRemorseUpdate` with 32-bit index arithmetic. -/
def applyRemorseUpdateI32 (weights features : List ℚ) (remorse learningRate : ℚ)
    (arrayLength : Int) : List ℚ :=
  let adjustmentFactor := learningRate * remorse
  chunk2I32 (fun w f => w + adjustmentFactor * f) weights features arrayLength 0

/-- State at exit of the 32-bit batched loop of `cosineSimilarity`. -/
structure CosSimdStateI32 where
  dotAcc : Lane4
  magAAcc : Lane4
  magBAcc : Lane4
  restA : List ℝ
  restB : List ℝ
  elementIndex : Int

/-- Batched loop of `cosineSimilarity` with explicit 32-bit index. -/
def cosSimdLoopI32 (a b : List ℝ) (arrayLength elementIndex : Int)
    (dAcc mA mB : Lane4) : CosSimdStateI32 :=
  if elementIndex ≤ wrap32 (arrayLength - 4) then
    match a, b with
    | a0 :: a1 :: a2 :: a3 :: a', b0 :: b1 :: b2 :: b3 :: b' =>
        cosSimdLoopI32 a' b' arrayLength (wrap32 (elementIndex + 4))
          ⟨dAcc.l0 + a0 * b0, dAcc.l1 + a1 * b1, dAcc.l2 + a2 * b2, dAcc.l3 + a3 * b3⟩
          ⟨mA.l0 + a0 * a0, mA.l1 + a1 * a1, mA.l2 + a2 * a2, mA.l3 + a3 * a3⟩
          ⟨mB.l0 + b0 * b0, mB.l1 + b1 * b1, mB.l2 + b2 * b2, mB.l3 + b3 * b3⟩
    | _, _ => ⟨dAcc, mA, mB, a, b, elementIndex⟩
  else ⟨dAcc, mA, mB, a, b, elementIndex⟩

/-- Scalar tail loop of `cosineSimilarity` with explicit 32-bit index. -/
def cosTailLoopI32 (a b : List ℝ) (arrayLength elementIndex : Int)
    (dot mA mB : ℝ) : ℝ × ℝ × ℝ :=
  if elementIndex < arrayLength then
    match a, b with
    | x :: a', y :: b' =>
        cosTailLoopI32 a' b' arrayLength (wrap32 (elementIndex + 1))
          (dot + x * y) (mA + x * x) (mB + y * y)
    | _, _ => (dot, mA, mB)
  else (dot, mA, mB)

open Classical in
/-- `VectorMetrics::cosineSimilarity` with 32-bit index arithmetic. -/
noncomputable def cosineSimilarityI32 (firstVector secondVector : List ℝ)
    (arrayLength : Int) : ℝ :=
  let st := cosSimdLoopI32 firstVector secondVector arrayLength 0
    Lane4.zero Lane4.zero Lane4.zero
  let r := cosTailLoopI32 st.restA st.restB arrayLength st.elementIndex
    st.dotAcc.hsum st.magAAcc.hsum st.magBAcc.hsum
  if r.2.1 = 0 ∨ r.2.2 = 0 then 0
  else r.1 / Real.sqrt (r.2.1 * r.2.2)

/-- State at exit of the 32-bit batched loop of `fuzzyJaccard`. -/
structure JacSimdStateI32 where
  interAcc : Lane4
  unionAcc : Lane4
  restA : List ℝ
  restB : List ℝ
  elementIndex : Int

/-- Batched loop of `fuzzyJaccard` with explicit 32-bit index. -/
def jacSimdLoopI32 (a b : List ℝ) (arrayLength elementIndex : Int)
    (iAcc uAcc : Lane4) : JacSimdStateI32 :=
  if elementIndex ≤ wrap32 (arrayLength - 4) then
    match a, b with
    | a0 :: a1 :: a2 :: a3 :: a', b0 :: b1 :: b2 :: b3 :: b' =>
        jacSimdLoopI32 a' b' arrayLength (wrap32 (elementIndex + 4))
          ⟨iAcc.l0 + min a0 b0, iAcc.l1 + min a1 b1, iAcc.l2 + min a2 b2, iAcc.l3 + min a3 b3⟩
          ⟨uAcc.l0 + max a0 b0, uAcc.l1 + max a1 b1, uAcc.l2 + max a2 b2, uAcc.l3 + max a3 b3⟩
    | _, _ => ⟨iAcc, uAcc, a, b, elementIndex⟩
  else ⟨iAcc, uAcc, a, b, elementIndex⟩

/-- Scalar tail loop of `fuzzyJaccard` with explicit 32-bit index. -/
def jacTailLoopI32 (a b : List ℝ) (arrayLength elementIndex : Int)
    (interSum unionSum : ℝ) : ℝ × ℝ :=
  if elementIndex < arrayLength then
    match a, b with
    | x :: a', y :: b' =>
        jacTailLoopI32 a' b' arrayLength (wrap32 (elementIndex + 1))
          (interSum + min x y) (unionSum + max x y)
    | _, _ => (interSum, unionSum)
  else (interSum, unionSum)

open Classical in
/-- `VectorMetrics::fuzzyJaccard` with 32-bit index arithmetic. -/
noncomputable def fuzzyJaccardI32 (firstVector secondVector : List ℝ)
    (arrayLength : Int) : ℝ :=
  let st := jacSimdLoopI32 firstVector secondVector arrayLength 0 Lane4.zero Lane4.zero
  let r := jacTailLoopI32 st.restA st.restB arrayLength st.elementIndex
    st.interAcc.hsum st.unionAcc.hsum
  if r.2 = 0 then 1
  else r.1 / r.2

/-! ### Engine facade and foreign-call boundary (SpartanEngine.cpp, SpartanApi.cpp)

The boundary entry point `spartan_test_vector_union` and the engine's
`computeFuzzySetUnion` are embedded over exact rationals (only order and
equality of the elements matter to the union kernel).  Null pointers are
embedded as `none`.  The two `high_resolution_clock` readings are passed
as explicit `Int` nanosecond timestamps; clock monotonicity
(`timerStart ≤ timerEnd`) is an explicit hypothesis of the theorems. -/

/-- `MemoryUtils::cleanView` (ArrayCleaners.cpp): wraps the raw pointer
and count into a non-owning view without copy; on the list embedding it
is the identity on the buffer contents. -/
def cleanView (rawBufferPointer : List ℚ) : List ℚ := rawBufferPointer

/-- `SpartanEngine::computeFuzzySetUnion`: reads the clock, builds clean
views over both buffers, runs the fuzzy union kernel over
`min(targetSetSize, sourceSetSize)` elements in place on the target,
reads the clock again, and returns the elapsed nanoseconds.  The result
pair is (elapsed nanoseconds, updated target buffer). -/
def computeFuzzySetUnion (targetFuzzySet sourceFuzzySet : List ℚ)
    (targetSetSize sourceSetSize : Int) (timerStart timerEnd : Int) :
    Int × List ℚ :=
  let targetCleanView := cleanView targetFuzzySet
  let sourceCleanView := cleanView sourceFuzzySet
  let newTarget :=
    unionSets max targetCleanView sourceCleanView (min targetSetSize sourceSetSize)
  (timerEnd - timerStart, newTarget)

/-- `spartan_test_vector_union` (SpartanApi.cpp): returns `-1` when
either pointer is null (here `none`) or either size is non-positive,
otherwise delegates to `SpartanEngine::computeFuzzySetUnion`.  The
result pair is (returned status/elapsed value, final target buffer). -/
def spartanTestVectorUnion (targetFuzzySet sourceFuzzySet : Option (List ℚ))
    (targetSetSize sourceSetSize : Int) (timerStart timerEnd : Int) :
    Int × Option (List ℚ) :=
  match targetFuzzySet, sourceFuzzySet with
  | some target, some source =>
    if targetSetSize ≤ 0 ∨ sourceSetSize ≤ 0 then (-1, some target)
    else
      let r := computeFuzzySetUnion target source targetSetSize sourceSetSize
        timerStart timerEnd
      (r.1, some r.2)
  | _, _ => (-1, targetFuzzySet)

/-! ### Agent model and registry
(SpartanBaseModel.cpp, SpartanModelRegistry.cpp, SpartanEngine.cpp)

Agent ids (`uint64_t`) are embedded as `Nat` (they are only stored and
compared).  Pointers are embedded as `Option`; `std::span<double>` as a
base/count pair.  To observe allocation behavior the engine carries a
ghost construction counter, and each model records the counter value at
its construction as a ghost `serial` — the only two deviations from the
source's fields, both invisible to the embedded operations' logic. -/

/-- `ModelHyperparameterConfig` (ModelHyperparameterConfig.h).  The
numeric fields are embedded as exact rationals; the core only stores the
record and reads `isTraining`. -/
structure ModelHyperparameterConfig where
  learningRate : ℚ
  gamma : ℚ
  epsilon : ℚ
  epsilonMin : ℚ
  epsilonDecay : ℚ
  isTraining : Bool
deriving DecidableEq

/-- A `std::span<double>`: base of the underlying buffer (`none` embeds
the null data pointer of a default-constructed span) and element count. -/
structure Span where
  base : Option Nat
  count : Nat
deriving DecidableEq

/-- `std::span<double>()`: the empty span with null data pointer. -/
def Span.empty : Span := ⟨none, 0⟩

/-- `SpartanBaseModel` (SpartanBaseModel.h): id, hyperparameter
reference, optional critic reference, weight/context/action spans, plus
the ghost construction serial. -/
structure SpartanBaseModel where
  uuid : Nat
  params : Option ModelHyperparameterConfig
  critic : Option Nat
  weights : Span
  contextBuffer : Span
  actionBuffer : Span
  serial : Nat
deriving DecidableEq

/-- `SpartanBaseModel::rebind`: replaces id and every reference on the
same object (the construction serial is untouched: no new object). -/
def SpartanBaseModel.rebind (m : SpartanBaseModel) (agentId : Nat)
    (params : Option ModelHyperparameterConfig) (critic : Option Nat)
    (weights contextBuffer actionBuffer : Span) : SpartanBaseModel :=
  { m with
    uuid := agentId
    params := params
    critic := critic
    weights := weights
    contextBuffer := contextBuffer
    actionBuffer := actionBuffer }

/-- `SpartanBaseModel::unbind`: clears the references and views; the id
field is left as is (the source does not reset `uuid_`). -/
def SpartanBaseModel.unbind (m : SpartanBaseModel) : SpartanBaseModel :=
  { m with
    params := none
    critic := none
    weights := Span.empty
    contextBuffer := Span.empty
    actionBuffer := Span.empty }

/-- `SpartanBaseModel::processTick`: returns immediately when the bound
hyperparameter record's `isTraining` is false; the training branch is an
unimplemented TODO in the source, so either way the observable state is
unchanged.  A null `params_` would be a null dereference (undefined
behavior, unreachable for models the registry ticks). -/
def SpartanBaseModel.processTick (m : SpartanBaseModel) : SpartanBaseModel :=
  match m.params with
  | some p => if !p.isTraining then m else m
  | none => m

/-- `std::unordered_map::operator[]` followed by move-assignment: binds
`k` to `v`, overwriting any existing binding for `k`. -/
def mapInsert (k : Nat) (v : SpartanBaseModel) :
    List (Nat × SpartanBaseModel) → List (Nat × SpartanBaseModel)
  | [] => [(k, v)]
  | (k', v') :: rest => if k' = k then (k, v) :: rest else (k', v') :: mapInsert k v rest

/-- `std::unordered_map::erase(key)`: removes the binding for `k` when
present; no effect otherwise. -/
def mapErase (k : Nat) :
    List (Nat × SpartanBaseModel) → List (Nat × SpartanBaseModel)
  | [] => []
  | (k', v') :: rest => if k' = k then rest else (k', v') :: mapErase k rest

/-- `std::unordered_map::find`-style lookup. -/
def mapFind (k : Nat) (m : List (Nat × SpartanBaseModel)) : Option SpartanBaseModel :=
  (m.find? (fun p => p.1 == k)).map (fun p => p.2)

/-- `SpartanModelRegistry` (SpartanModelRegistry.h): the active mapping
from agent id to its owned model, and the idle pool of models available
for reuse.  All operations acquire `registryMutex_`, so the embedded
operations are exactly the serialized critical sections. -/
structure SpartanModelRegistry where
  activeModels : List (Nat × SpartanBaseModel)
  idleModels : List SpartanBaseModel
deriving DecidableEq

/-- `SpartanModelRegistry::registerModel`:
`activeModels_[model->getId()] = std::move(model)`. -/
def SpartanModelRegistry.registerModel (reg : SpartanModelRegistry)
    (model : SpartanBaseModel) : SpartanModelRegistry :=
  { reg with activeModels := mapInsert model.uuid model reg.activeModels }

/-- `SpartanModelRegistry::unregisterModel`:
`activeModels_.erase(agentIdentifier)` — the erased owned model is
destroyed; the idle pool is not touched. -/
def SpartanModelRegistry.unregisterModel (reg : SpartanModelRegistry)
    (agentIdentifier : Nat) : SpartanModelRegistry :=
  { reg with activeModels := mapErase agentIdentifier reg.activeModels }

/-- The body of the `std::for_each(std::execution::par, ...)` lambda in
`SpartanModelRegistry::tickAll`: in the source it contains only the TODO
comment and the commented-out `model->tick`, so it invokes no per-model
hook.  The result is the list of `processTick` invocations (by model id)
the body performs for the given model. -/
def tickAllLambda (_model : SpartanBaseModel) : List Nat := []

/-- `SpartanModelRegistry::tickAll`: under the registry lock, snapshots
the active models into `modelsToTick` and runs the parallel for_each
lambda on each.  Returns the (unchanged) registry together with the
combined list of hook invocations performed. -/
def SpartanModelRegistry.tickAll (reg : SpartanModelRegistry) :
    SpartanModelRegistry × List Nat :=
  let modelsToTick := reg.activeModels.map (fun p => p.2)
  (reg, (modelsToTick.map tickAllLambda).flatten)

/-- `SpartanModelRegistry::hasIdleModelAvailable`. -/
def SpartanModelRegistry.hasIdleModelAvailable (reg : SpartanModelRegistry) : Bool :=
  !reg.idleModels.isEmpty

/-- `SpartanModelRegistry::getIdleModelToRebind`: pops the back of the
idle pool, or yields `none` when the pool is empty. -/
def SpartanModelRegistry.getIdleModelToRebind (reg : SpartanModelRegistry) :
    Option SpartanBaseModel × SpartanModelRegistry :=
  match reg.idleModels.getLast? with
  | none => (none, reg)
  | some model => (some model, { reg with idleModels := reg.idleModels.dropLast })

/-- `SpartanEngine`: the registry it owns, plus the ghost count of
`SpartanBaseModel` objects constructed so far (incremented at each
`std::make_unique<SpartanBaseModel>`), which doubles as the construction
serial given to the next model. -/
structure SpartanEngine where
  modelRegistry : SpartanModelRegistry
  constructedModels : Nat
deriving DecidableEq

/-- `SpartanEngine::registerAgent`: builds the context/weights/action
spans, leaves the critic reference null (TODO in the source), pops an
idle model and rebinds it when one is available — the rebound model is
held only by the local `idleModel` owner and, since the source does not
register it, is destroyed at the end of the `if` statement — and then
unconditionally constructs a new model and registers that one. -/
def SpartanEngine.registerAgent (eng : SpartanEngine) (agentIdentifier : Nat)
    (hyperparameterConfig : Option ModelHyperparameterConfig)
    (_criticWeights modelWeights context actionOutput : Span) : SpartanEngine :=
  let criticInstance : Option Nat := none
  let popped := eng.modelRegistry.getIdleModelToRebind
  let _reboundThenDestroyed :=
    popped.1.map (fun idleModel =>
      idleModel.rebind agentIdentifier hyperparameterConfig criticInstance
        modelWeights context actionOutput)
  let model : SpartanBaseModel :=
    { uuid := agentIdentifier
      params := hyperparameterConfig
      critic := criticInstance
      weights := modelWeights
      contextBuffer := context
      actionBuffer := actionOutput
      serial := eng.constructedModels }
  { modelRegistry := popped.2.registerModel model
    constructedModels := eng.constructedModels + 1 }

/-- `SpartanEngine::unregisterAgent`: delegates to the registry (the log
line has no state effect). -/
def SpartanEngine.unregisterAgent (eng : SpartanEngine)
    (agentIdentifier : Nat) : SpartanEngine :=
  { eng with modelRegistry := eng.modelRegistry.unregisterModel agentIdentifier }

/-- `SpartanEngine::tickAllAgents`: wraps the global rewards buffer in a
span (unused by `tickAll` in the source) and delegates to
`SpartanModelRegistry::tickAll`. -/
def SpartanEngine.tickAllAgents (eng : SpartanEngine) : SpartanEngine × List Nat :=
  let r := eng.modelRegistry.tickAll
  ({ eng with modelRegistry := r.1 }, r.2)

/-! ### Concrete lifecycle scenarios used by the registry theorems -/

/-- A concrete hyperparameter record. -/
def sampleParams : ModelHyperparameterConfig := ⟨1, 1, 1, 0, 1, true⟩

/-- A concrete non-empty buffer span. -/
def sampleSpan : Span := ⟨some 100, 8⟩

/-- An unbound model sitting in the idle pool, construction serial 0. -/
def pooledModel : SpartanBaseModel :=
  ⟨99, none, none, Span.empty, Span.empty, Span.empty, 0⟩

/-- An engine whose registry has one idle pooled model, no active
models, and one construction so far (the pooled model). -/
def engineWithIdle : SpartanEngine := ⟨⟨[], [pooledModel]⟩, 1⟩

/-- A fresh engine: nothing active, nothing pooled, nothing constructed. -/
def freshEngine : SpartanEngine := ⟨⟨[], []⟩, 0⟩

/-- A bound model in training mode. -/
def activeModel : SpartanBaseModel :=
  ⟨7, some sampleParams, none, sampleSpan, sampleSpan, sampleSpan, 0⟩

/-- A registry with exactly one active model and an empty idle pool. -/
def registryWithOneActive : SpartanModelRegistry := ⟨[(7, activeModel)], []⟩

end Spartan

namespace Spartan

/-! ### Batched = scalar, for the chunk combinators -/

theorem exists_cons_of_one_le {α : Type} (t : List α) (h : 1 ≤ t.length) :
    ∃ a r, t = a :: r := by
  obtain _ | ⟨a, r⟩ := t
  · simp at h
  · exact ⟨a, r, rfl⟩

theorem exists_four_cons {α : Type} (t : List α) (h : 4 ≤ t.length) :
    ∃ a b c d r, t = a :: b :: c :: d :: r := by
  obtain _ | ⟨a, _ | ⟨b, _ | ⟨c, _ | ⟨d, r⟩⟩⟩⟩ := t
  · simp at h
  · simp at h
  · simp at h
  · simp at h
  · exact ⟨a, b, c, d, r, rfl⟩

theorem chunkTail2_eq {α : Type} (f : α → α → α) :
    ∀ (t s : List α) (n : Int), 0 ≤ n → n.toNat ≤ t.length → n.toNat ≤ s.length →
      chunkTail2 f t s n = scalarMap2 f t s n.toNat := by
  intro t
  induction t with
  | nil =>
    intro s n h0 ht _
    have hn : n = 0 := by simp at ht; omega
    subst hn
    rw [chunkTail2.eq_def, if_neg (by omega)]
    simp [scalarMap2]
  | cons t0 t' ih =>
    intro s n h0 ht hs
    by_cases h1 : 1 ≤ n
    · obtain ⟨s0, s', rfl⟩ := exists_cons_of_one_le s (by omega)
      rw [chunkTail2, if_pos h1]
      have ht' : (n - 1).toNat ≤ t'.length := by simp at ht; omega
      have hs' : (n - 1).toNat ≤ s'.length := by simp at hs; omega
      rw [ih s' (n - 1) (by omega) ht' hs']
      have hsucc : n.toNat = (n - 1).toNat + 1 := by omega
      rw [hsucc]
      simp [scalarMap2]
    · have hn : n = 0 := by omega
      subst hn
      rw [chunkTail2.eq_def, if_neg (by omega)]
      simp [scalarMap2]

theorem chunk2_eq {α : Type} (f : α → α → α) (t s : List α) (n : Int)
    (h0 : 0 ≤ n) (ht : n.toNat ≤ t.length) (hs : n.toNat ≤ s.length) :
    chunk2 f t s n = scalarMap2 f t s n.toNat := by
  by_cases h4 : 4 ≤ n
  · have h4n : 4 ≤ n.toNat := by omega
    obtain ⟨t0, t1, t2, t3, t', rfl⟩ := exists_four_cons t (by omega)
    obtain ⟨s0, s1, s2, s3, s', rfl⟩ := exists_four_cons s (by omega)
    rw [chunk2, if_pos h4]
    have ht' : (n - 4).toNat ≤ t'.length := by simp at ht; omega
    have hs' : (n - 4).toNat ≤ s'.length := by simp at hs; omega
    rw [chunk2_eq f t' s' (n - 4) (by omega) ht' hs']
    have hsplit : n.toNat = (((n - 4).toNat + 1) + 1 + 1) + 1 := by omega
    rw [hsplit]
    simp [scalarMap2]
  · rw [chunk2.eq_def, if_neg h4]
    exact chunkTail2_eq f t s n h0 ht hs
termination_by n.toNat
decreasing_by omega

theorem chunkTail1_eq {α : Type} (g : α → α) :
    ∀ (t : List α) (n : Int), 0 ≤ n → n.toNat ≤ t.length →
      chunkTail1 g t n = scalarMap1 g t n.toNat := by
  intro t
  induction t with
  | nil =>
    intro n h0 ht
    have hn : n = 0 := by simp at ht; omega
    subst hn
    rw [chunkTail1.eq_def, if_neg (by omega)]
    simp [scalarMap1]
  | cons t0 t' ih =>
    intro n h0 ht
    by_cases h1 : 1 ≤ n
    · rw [chunkTail1, if_pos h1]
      have ht' : (n - 1).toNat ≤ t'.length := by simp at ht; omega
      rw [ih (n - 1) (by omega) ht']
      have hsucc : n.toNat = (n - 1).toNat + 1 := by omega
      rw [hsucc]
      simp [scalarMap1]
    · have hn : n = 0 := by omega
      subst hn
      rw [chunkTail1.eq_def, if_neg (by omega)]
      simp [scalarMap1]

theorem chunk1_eq {α : Type} (g : α → α) (t : List α) (n : Int)
    (h0 : 0 ≤ n) (ht : n.toNat ≤ t.length) :
    chunk1 g t n = scalarMap1 g t n.toNat := by
  by_cases h4 : 4 ≤ n
  · have h4n : 4 ≤ n.toNat := by omega
    obtain ⟨t0, t1, t2, t3, t', rfl⟩ := exists_four_cons t (by omega)
    rw [chunk1, if_pos h4]
    have ht' : (n - 4).toNat ≤ t'.length := by simp at ht; omega
    rw [chunk1_eq g t' (n - 4) (by omega) ht']
    have hsplit : n.toNat = (((n - 4).toNat + 1) + 1 + 1) + 1 := by omega
    rw [hsplit]
    simp [scalarMap1]
  · rw [chunk1.eq_def, if_neg h4]
    exact chunkTail1_eq g t n h0 ht
termination_by n.toNat
decreasing_by omega

/-! ### Loop characterizations for the metric kernels -/

theorem cosTailLoop_eq :
    ∀ (a b : List ℝ) (n : Int), 0 ≤ n → n.toNat ≤ a.length → n.toNat ≤ b.length →
      ∀ (dot mA mB : ℝ),
        cosTailLoop a b n dot mA mB =
          (dot + dotSpec a b n.toNat, mA + sumSqSpec a n.toNat, mB + sumSqSpec b n.toNat) := by
  intro a
  induction a with
  | nil =>
    intro b n h0 ha _ dot mA mB
    have hn : n = 0 := by simp at ha; omega
    subst hn
    rw [cosTailLoop.eq_def, if_neg (by omega)]
    simp [dotSpec, sumSqSpec]
  | cons x a' ih =>
    intro b n h0 ha hb dot mA mB
    by_cases h1 : 1 ≤ n
    · obtain ⟨y, b', rfl⟩ := exists_cons_of_one_le b (by omega)
      rw [cosTailLoop, if_pos h1]
      rw [ih b' (n - 1) (by omega) (by simp at ha; omega) (by simp at hb; omega)]
      have hsucc : n.toNat = (n - 1).toNat + 1 := by omega
      rw [hsucc]
      simp only [dotSpec, sumSqSpec, List.take_succ_cons, List.zipWith_cons_cons,
        List.map_cons, List.sum_cons, Prod.mk.injEq]
      refine ⟨by ring, by ring, by ring⟩
    · have hn : n = 0 := by omega
      subst hn
      rw [cosTailLoop.eq_def, if_neg (by omega)]
      simp [dotSpec, sumSqSpec]

theorem cosLoops_eq (a b : List ℝ) (n : Int)
    (h0 : 0 ≤ n) (ha : n.toNat ≤ a.length) (hb : n.toNat ≤ b.length)
    (dAcc mA mB : Lane4) :
    cosTailLoop (cosSimdLoop a b n dAcc mA mB).restA (cosSimdLoop a b n dAcc mA mB).restB
        (cosSimdLoop a b n dAcc mA mB).restN
        (cosSimdLoop a b n dAcc mA mB).dotAcc.hsum
        (cosSimdLoop a b n dAcc mA mB).magAAcc.hsum
        (cosSimdLoop a b n dAcc mA mB).magBAcc.hsum =
      (dAcc.hsum + dotSpec a b n.toNat, mA.hsum + sumSqSpec a n.toNat,
        mB.hsum + sumSqSpec b n.toNat) := by
  by_cases h4 : 4 ≤ n
  · obtain ⟨a0, a1, a2, a3, a', rfl⟩ := exists_four_cons a (by omega)
    obtain ⟨b0, b1, b2, b3, b', rfl⟩ := exists_four_cons b (by omega)
    rw [cosSimdLoop, if_pos h4]
    rw [cosLoops_eq a' b' (n - 4) (by omega) (by simp at ha; omega) (by simp at hb; omega)]
    have hsplit : n.toNat = (((n - 4).toNat + 1) + 1 + 1) + 1 := by omega
    rw [hsplit]
    simp only [dotSpec, sumSqSpec, List.take_succ_cons, List.zipWith_cons_cons,
      List.map_cons, List.sum_cons, Lane4.hsum, Prod.mk.injEq]
    refine ⟨by ring, by ring, by ring⟩
  · rw [cosSimdLoop.eq_def, if_neg h4]
    exact cosTailLoop_eq a b n h0 ha hb dAcc.hsum mA.hsum mB.hsum
termination_by n.toNat
decreasing_by omega

theorem jacTailLoop_eq :
    ∀ (a b : List ℝ) (n : Int), 0 ≤ n → n.toNat ≤ a.length → n.toNat ≤ b.length →
      ∀ (interSum unionSum : ℝ),
        jacTailLoop a b n interSum unionSum =
          (interSum + interSpec a b n.toNat, unionSum + unionSpec a b n.toNat) := by
  intro a
  induction a with
  | nil =>
    intro b n h0 ha _ interSum unionSum
    have hn : n = 0 := by simp at ha; omega
    subst hn
    rw [jacTailLoop.eq_def, if_neg (by omega)]
    simp [interSpec, unionSpec]
  | cons x a' ih =>
    intro b n h0 ha hb interSum unionSum
    by_cases h1 : 1 ≤ n
    · obtain ⟨y, b', rfl⟩ := exists_cons_of_one_le b (by omega)
      rw [jacTailLoop, if_pos h1]
      rw [ih b' (n - 1) (by omega) (by simp at ha; omega) (by simp at hb; omega)]
      have hsucc : n.toNat = (n - 1).toNat + 1 := by omega
      rw [hsucc]
      simp only [interSpec, unionSpec, List.take_succ_cons, List.zipWith_cons_cons,
        List.sum_cons, Prod.mk.injEq]
      refine ⟨by ring, by ring⟩
    · have hn : n = 0 := by omega
      subst hn
      rw [jacTailLoop.eq_def, if_neg (by omega)]
      simp [interSpec, unionSpec]

theorem jacLoops_eq (a b : List ℝ) (n : Int)
    (h0 : 0 ≤ n) (ha : n.toNat ≤ a.length) (hb : n.toNat ≤ b.length)
    (iAcc uAcc : Lane4) :
    jacTailLoop (jacSimdLoop a b n iAcc uAcc).restA (jacSimdLoop a b n iAcc uAcc).restB
        (jacSimdLoop a b n iAcc uAcc).restN
        (jacSimdLoop a b n iAcc uAcc).interAcc.hsum
        (jacSimdLoop a b n iAcc uAcc).unionAcc.hsum =
      (iAcc.hsum + interSpec a b n.toNat, uAcc.hsum + unionSpec a b n.toNat) := by
  by_cases h4 : 4 ≤ n
  · obtain ⟨a0, a1, a2, a3, a', rfl⟩ := exists_four_cons a (by omega)
    obtain ⟨b0, b1, b2, b3, b', rfl⟩ := exists_four_cons b (by omega)
    rw [jacSimdLoop, if_pos h4]
    rw [jacLoops_eq a' b' (n - 4) (by omega) (by simp at ha; omega) (by simp at hb; omega)]
    have hsplit : n.toNat = (((n - 4).toNat + 1) + 1 + 1) + 1 := by omega
    rw [hsplit]
    simp only [interSpec, unionSpec, List.take_succ_cons, List.zipWith_cons_cons,
      List.sum_cons, Lane4.hsum, Prod.mk.injEq]
    refine ⟨by ring, by ring⟩
  · rw [jacSimdLoop.eq_def, if_neg h4]
    exact jacTailLoop_eq a b n h0 ha hb iAcc.hsum uAcc.hsum
termination_by n.toNat
decreasing_by omega

/-- The guarded final value of `cosineSimilarity` in terms of the
spec-side reductions. -/
theorem cosineSimilarity_eq (a b : List ℝ) (n : Int)
    (h0 : 0 ≤ n) (ha : n.toNat ≤ a.length) (hb : n.toNat ≤ b.length) :
    cosineSimilarity a b n =
      if sumSqSpec a n.toNat = 0 ∨ sumSqSpec b n.toNat = 0 then 0
      else dotSpec a b n.toNat / Real.sqrt (sumSqSpec a n.toNat * sumSqSpec b n.toNat) := by
  have hz : Lane4.zero.hsum = 0 := by simp [Lane4.zero, Lane4.hsum]
  have h := cosLoops_eq a b n h0 ha hb Lane4.zero Lane4.zero Lane4.zero
  rw [hz] at h
  simp only [zero_add] at h
  simp only [cosineSimilarity, h]

/-- The guarded final value of `fuzzyJaccard` in terms of the spec-side
reductions. -/
theorem fuzzyJaccard_eq (a b : List ℝ) (n : Int)
    (h0 : 0 ≤ n) (ha : n.toNat ≤ a.length) (hb : n.toNat ≤ b.length) :
    fuzzyJaccard a b n =
      if unionSpec a b n.toNat = 0 then 1
      else interSpec a b n.toNat / unionSpec a b n.toNat := by
  have hz : Lane4.zero.hsum = 0 := by simp [Lane4.zero, Lane4.hsum]
  have h := jacLoops_eq a b n h0 ha hb Lane4.zero Lane4.zero
  rw [hz] at h
  simp only [zero_add] at h
  simp only [fuzzyJaccard, h]

/-! ### Facts about the 32-bit index arithmetic -/

/-- `wrap32` is the identity exactly on the `int` range. -/
theorem wrap32_eq_self (x : Int) (hlo : -2147483648 ≤ x) (hhi : x < 2147483648) :
    wrap32 x = x := by
  unfold wrap32
  omega

theorem chunkTail2I32_stop {α : Type} (f : α → α → α) (t s : List α) (L i : Int)
    (h : ¬ i < L) : chunkTail2I32 f t s L i = t := by
  rw [chunkTail2I32.eq_def, if_neg h]

theorem chunk2I32_stop {α : Type} (f : α → α → α) (t s : List α) (L i : Int)
    (h : ¬ i ≤ wrap32 (L - 4)) : chunk2I32 f t s L i = chunkTail2I32 f t s L i := by
  rw [chunk2I32.eq_def, if_neg h]

theorem chunkTail1I32_stop {α : Type} (g : α → α) (t : List α) (L i : Int)
    (h : ¬ i < L) : chunkTail1I32 g t L i = t := by
  rw [chunkTail1I32.eq_def, if_neg h]

theorem chunk1I32_stop {α : Type} (g : α → α) (t : List α) (L i : Int)
    (h : ¬ i ≤ wrap32 (L - 4)) : chunk1I32 g t L i = chunkTail1I32 g t L i := by
  rw [chunk1I32.eq_def, if_neg h]

theorem cosSimdLoopI32_stop (a b : List ℝ) (L i : Int) (d m1 m2 : Lane4)
    (h : ¬ i ≤ wrap32 (L - 4)) :
    cosSimdLoopI32 a b L i d m1 m2 = ⟨d, m1, m2, a, b, i⟩ := by
  rw [cosSimdLoopI32.eq_def, if_neg h]

theorem cosTailLoopI32_stop (a b : List ℝ) (L i : Int) (dot mA mB : ℝ)
    (h : ¬ i < L) : cosTailLoopI32 a b L i dot mA mB = (dot, mA, mB) := by
  rw [cosTailLoopI32.eq_def, if_neg h]

theorem jacSimdLoopI32_stop (a b : List ℝ) (L i : Int) (iA uA : Lane4)
    (h : ¬ i ≤ wrap32 (L - 4)) :
    jacSimdLoopI32 a b L i iA uA = ⟨iA, uA, a, b, i⟩ := by
  rw [jacSimdLoopI32.eq_def, if_neg h]

theorem jacTailLoopI32_stop (a b : List ℝ) (L i : Int) (interSum unionSum : ℝ)
    (h : ¬ i < L) : jacTailLoopI32 a b L i interSum unionSum = (interSum, unionSum) := by
  rw [jacTailLoopI32.eq_def, if_neg h]

/-! ### Claim theorems -/

/-- C1 (code bug): for a registration against a non-empty idle pool, the
claim says the pooled model is popped, rebound and inserted, with a new
Agent Model constructed only when the pool is empty.  The code pops and
rebinds the pooled model but, lacking an else/return, unconditionally
constructs a fresh model and inserts that one; evaluated on an engine
whose pool holds one model (serial 0): the pool was non-empty, yet the
construction count rises from 1 to 2, the model inserted under id 7 is
the fresh one (serial 1), and the popped model is in neither collection
(destroyed). -/
theorem c1_registerAgent_constructs_despite_idle_pool :
    engineWithIdle.modelRegistry.hasIdleModelAvailable = true ∧
    (engineWithIdle.registerAgent 7 (some sampleParams) sampleSpan sampleSpan
      sampleSpan sampleSpan).constructedModels = 2 ∧
    mapFind 7 (engineWithIdle.registerAgent 7 (some sampleParams) sampleSpan sampleSpan
      sampleSpan sampleSpan).modelRegistry.activeModels =
      some ⟨7, some sampleParams, none, sampleSpan, sampleSpan, sampleSpan, 1⟩ ∧
    (engineWithIdle.registerAgent 7 (some sampleParams) sampleSpan sampleSpan
      sampleSpan sampleSpan).modelRegistry.idleModels = [] :=
  ⟨rfl, rfl, rfl, rfl⟩

/-- C2 (code bug): the claim says one `tickAll` call invokes each active
model's `processTick` exactly once.  The source's for_each lambda
contains only a TODO comment (the `model->tick` call is commented out),
so with one active model the invocation list is empty — zero
invocations, not one — while the registry is left unchanged. -/
theorem c2_tickAll_performs_no_hook_invocations :
    registryWithOneActive.activeModels.length = 1 ∧
    registryWithOneActive.tickAll.2 = [] ∧
    registryWithOneActive.tickAll.1 = registryWithOneActive :=
  ⟨rfl, rfl, rfl⟩

/-- C3 (code bug): after registering id 1 and unregistering it, the id
is gone from the active mapping and a second unregister is a no-op (that
much of the claim holds), but the retired model was destroyed rather
than unbound into the idle pool — the pool stays empty — so registering
id 2 afterwards constructs a second model: churn grows the construction
count without bound instead of recycling. -/
theorem c3_unregister_destroys_model_instead_of_pooling :
    mapFind 1 ((freshEngine.registerAgent 1 (some sampleParams) sampleSpan sampleSpan
      sampleSpan sampleSpan).unregisterAgent 1).modelRegistry.activeModels = none ∧
    ((freshEngine.registerAgent 1 (some sampleParams) sampleSpan sampleSpan
      sampleSpan sampleSpan).unregisterAgent 1).unregisterAgent 1 =
      (freshEngine.registerAgent 1 (some sampleParams) sampleSpan sampleSpan
        sampleSpan sampleSpan).unregisterAgent 1 ∧
    ((freshEngine.registerAgent 1 (some sampleParams) sampleSpan sampleSpan
      sampleSpan sampleSpan).unregisterAgent 1).modelRegistry.idleModels = [] ∧
    (((freshEngine.registerAgent 1 (some sampleParams) sampleSpan sampleSpan
      sampleSpan sampleSpan).unregisterAgent 1).registerAgent 2 (some sampleParams)
      sampleSpan sampleSpan sampleSpan sampleSpan).constructedModels = 2 :=
  ⟨rfl, rfl, rfl, rfl⟩

/-- C5 (confirmed): every element-wise kernel — union, intersection,
complement, concentration, dilation — computes, for any element count
(divisible by the batch width of 4 or not) and any per-element
operation, exactly the spec's scalar element-by-element result on the
first `n` elements, leaving the rest of the target untouched.  Since the
batched lanes and the scalar tail apply the same per-element operation,
this holds for every batch width and element operation, which is the
bit-for-bit identity the spec demands of the IEEE operations. -/
theorem c5_batched_kernels_equal_scalar {α : Type}
    (fmax fmin fsub fmul : α → α → α) (fsqrt : α → α) (one : α)
    (t s : List α) (n : Int)
    (h0 : 0 ≤ n) (ht : n.toNat ≤ t.length) (hs : n.toNat ≤ s.length) :
    unionSets fmax t s n = scalarMap2 fmax t s n.toNat ∧
    intersectSets fmin t s n = scalarMap2 fmin t s n.toNat ∧
    complementSet fsub one t n = scalarMap1 (fun x => fsub one x) t n.toNat ∧
    applyConcentration fmul t n = scalarMap1 (fun x => fmul x x) t n.toNat ∧
    applyDilation fsqrt t n = scalarMap1 fsqrt t n.toNat :=
  ⟨chunk2_eq fmax t s n h0 ht hs,
   chunk2_eq fmin t s n h0 ht hs,
   chunk1_eq (fun x => fsub one x) t n h0 ht,
   chunk1_eq (fun x => fmul x x) t n h0 ht,
   chunk1_eq fsqrt t n h0 ht⟩

/-- Witness for C5 at a length (7) not divisible by the batch width. -/
theorem c5_witness :
    (0:Int) ≤ 7 ∧
    unionSets (max : ℚ → ℚ → ℚ) [1, 2, 3, 4, 5, 6, 7, 8, 9] [9, 8, 7, 6, 5, 4, 3, 2] 7 =
      scalarMap2 max [1, 2, 3, 4, 5, 6, 7, 8, 9] [9, 8, 7, 6, 5, 4, 3, 2] (7:Int).toNat :=
  ⟨by decide,
   (c5_batched_kernels_equal_scalar max min (fun a b => a - b) (fun a b => a * b) id 1
      [1, 2, 3, 4, 5, 6, 7, 8, 9] [9, 8, 7, 6, 5, 4, 3, 2] 7
      (by decide) (by decide) (by decide)).1⟩

/-- C10 counterexample: the claim as stated quantifies over every
non-positive `arrayLength`, but at `arrayLength = INT_MIN = -2^31` the
batch guard's subtraction `arrayLength - 4` overflows `int` (undefined
behavior; under the two's-complement wrap of every mainstream target it
becomes `2^31 - 4`), the guard `0 <= arrayLength - 4` fires, and the
batched loop loads and stores memory: the union kernel overwrites its
target buffer at a negative length, refuting "performs no memory access
at all". -/
theorem c10_counterexample :
    ((-2147483648 : Int) ≤ 0) ∧
    unionSetsI32 (max : Int → Int → Int) [1, 2, 3, 4] [5, 6, 7, 8] (-2147483648) =
      [5, 6, 7, 8] ∧
    unionSetsI32 (max : Int → Int → Int) [1, 2, 3, 4] [5, 6, 7, 8] (-2147483648) ≠
      [1, 2, 3, 4] :=
  ⟨by decide, by decide, by decide⟩

/-- C10 (amended): for every non-positive `arrayLength` for which the
batch guard's 32-bit subtraction `arrayLength - 4` does not overflow —
that is, every `int` value with `INT_MIN + 3 < arrayLength ≤ 0` — no
loop guard fires, so every kernel is total and touches no memory: the
five fuzzy kernels and the gradient update return their target buffers
unchanged, `cosineSimilarity` returns `0.0` (both accumulated squared
magnitudes are still `0.0`, so its guard fires) and `fuzzyJaccard`
returns `1.0` (the accumulated union sum is still `0.0`).  Stated on
the kernels with explicit 32-bit index arithmetic. -/
theorem c10_amended_nonpositive_noop_within_int32 {α : Type}
    (fmax fmin fsub fmul : α → α → α) (fsqrt : α → α) (one : α)
    (t s : List α) (w f : List ℚ) (remorse lr : ℚ) (a b : List ℝ)
    (n : Int) (hlo : (-2147483648 : Int) + 3 < n) (hn : n ≤ 0) :
    unionSetsI32 fmax t s n = t ∧
    intersectSetsI32 fmin t s n = t ∧
    complementSetI32 fsub one t n = t ∧
    applyConcentrationI32 fmul t n = t ∧
    applyDilationI32 fsqrt t n = t ∧
    applyRemorseUpdateI32 w f remorse lr n = w ∧
    cosineSimilarityI32 a b n = 0 ∧
    fuzzyJaccardI32 a b n = 1 := by
  have hw : wrap32 (n - 4) = n - 4 := wrap32_eq_self _ (by omega) (by omega)
  have hg4 : ¬ (0 : Int) ≤ wrap32 (n - 4) := by rw [hw]; omega
  have hg1 : ¬ (0 : Int) < n := by omega
  have hz : Lane4.zero.hsum = 0 := by simp [Lane4.zero, Lane4.hsum]
  refine ⟨?_, ?_, ?_, ?_, ?_, ?_, ?_, ?_⟩
  · show chunk2I32 fmax t s n 0 = t
    rw [chunk2I32_stop fmax t s n 0 hg4, chunkTail2I32_stop fmax t s n 0 hg1]
  · show chunk2I32 fmin t s n 0 = t
    rw [chunk2I32_stop fmin t s n 0 hg4, chunkTail2I32_stop fmin t s n 0 hg1]
  · show chunk1I32 (fun x => fsub one x) t n 0 = t
    rw [chunk1I32_stop _ t n 0 hg4, chunkTail1I32_stop _ t n 0 hg1]
  · show chunk1I32 (fun x => fmul x x) t n 0 = t
    rw [chunk1I32_stop _ t n 0 hg4, chunkTail1I32_stop _ t n 0 hg1]
  · show chunk1I32 fsqrt t n 0 = t
    rw [chunk1I32_stop _ t n 0 hg4, chunkTail1I32_stop _ t n 0 hg1]
  · show chunk2I32 (fun wi fi => wi + lr * remorse * fi) w f n 0 = w
    rw [chunk2I32_stop _ w f n 0 hg4, chunkTail2I32_stop _ w f n 0 hg1]
  · simp only [cosineSimilarityI32,
      cosSimdLoopI32_stop a b n 0 _ _ _ hg4,
      cosTailLoopI32_stop a b n 0 _ _ _ hg1]
    rw [if_pos (Or.inl hz)]
  · simp only [fuzzyJaccardI32,
      jacSimdLoopI32_stop a b n 0 _ _ hg4,
      jacTailLoopI32_stop a b n 0 _ _ hg1]
    rw [if_pos hz]

/-- Witness for the amended C10 at the negative length `-2`, inside the
non-overflowing range. -/
theorem c10_amended_witness :
    ((-2147483648 : Int) + 3 < -2 ∧ (-2 : Int) ≤ 0) ∧
    unionSetsI32 (max : ℚ → ℚ → ℚ) [1, 2] [3, 4] (-2) = [1, 2] :=
  ⟨⟨by decide, by decide⟩,
   (c10_amended_nonpositive_noop_within_int32 max min (fun x y => x - y)
      (fun x y => x * y) id 1 [1, 2] [3, 4] [1] [1] 0 0 [1] [1] (-2)
      (by decide) (by decide)).1⟩

/-- A binary in-place kernel whose element operation returns the target
element unchanged leaves the whole target buffer unchanged. -/
theorem scalarMap2_fst {α : Type} :
    ∀ (m : Nat) (t s : List α), m ≤ t.length → m ≤ s.length →
      scalarMap2 (fun a _ => a) t s m = t := by
  intro m
  induction m with
  | zero => intro t s _ _; simp [scalarMap2]
  | succ k ih =>
    intro t s ht hs
    obtain ⟨t0, t', rfl⟩ := exists_cons_of_one_le t (by omega)
    obtain ⟨s0, s', rfl⟩ := exists_cons_of_one_le s (by omega)
    have htail := ih t' s' (by simp at ht; omega) (by simp at hs; omega)
    simp only [scalarMap2] at htail ⊢
    simp only [List.take_succ_cons, List.zipWith_cons_cons, List.drop_succ_cons,
      List.cons_append, htail]

/-- C4 (confirmed): `applyRemorseUpdate` over `n = min(len(w), len(f))`
elements sets `w[i]` to `w_old[i] + (learningRate * remorse) * f[i]` for
every `i < n` and leaves the remaining elements (and the buffer length)
unchanged; `remorse = 0` leaves `w` unchanged for any learning rate, and
`remorse = 1, learningRate = 1` adds the features pointwise. -/
theorem c4_applyRemorseUpdate_spec (w f : List ℚ) (remorse lr : ℚ) (n : Int)
    (hn : n = ((min w.length f.length : Nat) : Int)) :
    applyRemorseUpdate w f remorse lr n =
      scalarMap2 (fun wi fi => wi + (lr * remorse) * fi) w f (min w.length f.length) ∧
    (∀ i (hiw : i < w.length) (hif : i < f.length),
      (applyRemorseUpdate w f remorse lr n)[i]? =
        some (w.get ⟨i, hiw⟩ + (lr * remorse) * f.get ⟨i, hif⟩)) ∧
    (remorse = 0 → applyRemorseUpdate w f remorse lr n = w) ∧
    (remorse = 1 → lr = 1 →
      applyRemorseUpdate w f remorse lr n =
        scalarMap2 (fun wi fi => wi + fi) w f (min w.length f.length)) := by
  subst hn
  have htn : ((min w.length f.length : Nat) : Int).toNat = min w.length f.length :=
    Int.toNat_natCast _
  have hmain : applyRemorseUpdate w f remorse lr ((min w.length f.length : Nat) : Int) =
      scalarMap2 (fun wi fi => wi + (lr * remorse) * fi) w f (min w.length f.length) := by
    simp only [applyRemorseUpdate]
    rw [chunk2_eq _ w f _ (by omega) (by rw [htn]; omega) (by rw [htn]; omega), htn]
  refine ⟨hmain, ?_, ?_, ?_⟩
  · intro i hiw hif
    have hi : i < min w.length f.length := by omega
    rw [hmain, scalarMap2, List.getElem?_append, if_pos ?hlen]
    case hlen =>
      simp only [List.length_zipWith, List.length_take]
      omega
    rw [List.getElem?_zipWith, List.getElem?_take, if_pos hi, List.getElem?_take,
      if_pos hi, List.getElem?_eq_getElem hiw, List.getElem?_eq_getElem hif]
    rfl
  · intro h0r
    subst h0r
    rw [hmain]
    simp only [mul_zero, zero_mul, add_zero]
    exact scalarMap2_fst (min w.length f.length) w f (min_le_left _ _) (min_le_right _ _)
  · intro h1 h2
    subst h1; subst h2
    rw [hmain]
    simp only [mul_one, one_mul]

/-- Witness for C4 on a weight buffer longer than the feature buffer. -/
theorem c4_witness :
    ((2 : Int) = ((min ([1, 2, 3] : List ℚ).length ([4, 5] : List ℚ).length : Nat) : Int)) ∧
    applyRemorseUpdate [1, 2, 3] [4, 5] 3 5 2 =
      scalarMap2 (fun wi fi => wi + ((5 : ℚ) * 3) * fi) [1, 2, 3] [4, 5]
        (min ([1, 2, 3] : List ℚ).length ([4, 5] : List ℚ).length) :=
  ⟨by decide, (c4_applyRemorseUpdate_spec [1, 2, 3] [4, 5] 3 5 2 (by decide)).1⟩

/-- C6 (confirmed): `cosineSimilarity` over `n` elements returns
`dot(a,b) / sqrt(sumSq(a) * sumSq(b))`, except that it returns exactly
`0.0` whenever either squared magnitude is exactly `0.0`; the inputs are
read-only (the embedding returns only the scalar). -/
theorem c6_cosineSimilarity_spec (a b : List ℝ) (n : Int)
    (h0 : 0 ≤ n) (ha : n.toNat ≤ a.length) (hb : n.toNat ≤ b.length) :
    cosineSimilarity a b n =
      if sumSqSpec a n.toNat = 0 ∨ sumSqSpec b n.toNat = 0 then 0
      else dotSpec a b n.toNat / Real.sqrt (sumSqSpec a n.toNat * sumSqSpec b n.toNat) :=
  cosineSimilarity_eq a b n h0 ha hb

/-- Witness for C6 on two-element vectors. -/
theorem c6_witness :
    (0 : Int) ≤ 2 ∧
    cosineSimilarity [1, 2] [3, 4] 2 =
      if sumSqSpec [1, 2] (2 : Int).toNat = 0 ∨ sumSqSpec [3, 4] (2 : Int).toNat = 0 then 0
      else dotSpec [1, 2] [3, 4] (2 : Int).toNat /
        Real.sqrt (sumSqSpec [1, 2] (2 : Int).toNat * sumSqSpec [3, 4] (2 : Int).toNat) :=
  ⟨by decide, c6_cosineSimilarity_spec [1, 2] [3, 4] 2 (by decide) (by decide) (by decide)⟩

/-- C7 (confirmed): for any vector of length at least 1 with non-zero
squared magnitude, the cosine similarity with itself is exactly `1.0`
(in the real semantics of the spec's formulas: `dot(A,A) = sumSq(A)` and
`sqrt(S * S) = S`). -/
theorem c7_cosine_self_is_one (a : List ℝ) (_hlen : 1 ≤ a.length)
    (hmag : sumSqSpec a a.length ≠ 0) :
    cosineSimilarity a a (a.length : Int) = 1 := by
  have h := cosineSimilarity_eq a a (a.length : Int) (Int.ofNat_nonneg _)
    (by simp) (by simp)
  rw [Int.toNat_natCast] at h
  have hdot : dotSpec a a a.length = sumSqSpec a a.length := by
    simp [dotSpec, sumSqSpec, List.zipWith_same]
  have hnn : 0 ≤ sumSqSpec a a.length := by
    simp only [sumSqSpec]
    apply List.sum_nonneg
    intro x hx
    obtain ⟨y, _, rfl⟩ := List.mem_map.mp hx
    exact mul_self_nonneg y
  rw [h, if_neg (by push_neg; exact ⟨hmag, hmag⟩), hdot,
    Real.sqrt_mul_self hnn, div_self hmag]

/-- Witness for C7 on the one-element vector `[1]`. -/
theorem c7_witness :
    1 ≤ ([1] : List ℝ).length ∧
    cosineSimilarity [1] [1] ((([1] : List ℝ).length : Nat) : Int) = 1 :=
  ⟨by decide, c7_cosine_self_is_one [1] (by decide) (by norm_num [sumSqSpec])⟩

/-- C8 (confirmed): `fuzzyJaccard` over `n` elements returns
`sum(min(a[i],b[i])) / sum(max(a[i],b[i]))`, returning exactly `1.0`
whenever the union sum is exactly `0.0`; in particular
`fuzzyJaccard(A, A) = 1.0` for every vector `A`, all-zero vectors
included. -/
theorem c8_fuzzyJaccard_spec (a b : List ℝ) (n : Int)
    (h0 : 0 ≤ n) (ha : n.toNat ≤ a.length) (hb : n.toNat ≤ b.length) :
    (fuzzyJaccard a b n =
      if unionSpec a b n.toNat = 0 then 1
      else interSpec a b n.toNat / unionSpec a b n.toNat) ∧
    (∀ c : List ℝ, fuzzyJaccard c c (c.length : Int) = 1) := by
  refine ⟨fuzzyJaccard_eq a b n h0 ha hb, ?_⟩
  intro c
  have h := fuzzyJaccard_eq c c (c.length : Int) (Int.ofNat_nonneg _) (by simp) (by simp)
  rw [Int.toNat_natCast] at h
  have hiu : interSpec c c c.length = unionSpec c c c.length := by
    simp [interSpec, unionSpec, List.zipWith_same]
  by_cases hu : unionSpec c c c.length = 0
  · rw [h, if_pos hu]
  · rw [h, if_neg hu, hiu, div_self hu]

/-- Witness for C8 on two-element vectors. -/
theorem c8_witness :
    (0 : Int) ≤ 2 ∧
    (fuzzyJaccard [1, 2] [3, 4] 2 =
      if unionSpec [1, 2] [3, 4] (2 : Int).toNat = 0 then 1
      else interSpec [1, 2] [3, 4] (2 : Int).toNat / unionSpec [1, 2] [3, 4] (2 : Int).toNat) ∧
    (∀ c : List ℝ, fuzzyJaccard c c (c.length : Int) = 1) :=
  ⟨by decide, c8_fuzzyJaccard_spec [1, 2] [3, 4] 2 (by decide) (by decide) (by decide)⟩

/-- C9 (confirmed): the boundary entry point returns a negative sentinel
(`-1`) exactly when a pointer is null or a size is non-positive; on
valid inputs it runs the fuzzy union kernel in place on the target over
exactly `min(sizeA, sizeB)` elements and returns the elapsed time, which
is non-negative for monotone clock readings. -/
theorem c9_boundary_union_contract (targetFuzzySet sourceFuzzySet : Option (List ℚ))
    (targetSetSize sourceSetSize timerStart timerEnd : Int)
    (hclock : timerStart ≤ timerEnd) :
    ((spartanTestVectorUnion targetFuzzySet sourceFuzzySet targetSetSize sourceSetSize
        timerStart timerEnd).1 < 0 ↔
      (targetFuzzySet = none ∨ sourceFuzzySet = none ∨
        targetSetSize ≤ 0 ∨ sourceSetSize ≤ 0)) ∧
    (∀ target source, targetFuzzySet = some target → sourceFuzzySet = some source →
      0 < targetSetSize → 0 < sourceSetSize →
      (min targetSetSize sourceSetSize).toNat ≤ target.length →
      (min targetSetSize sourceSetSize).toNat ≤ source.length →
      spartanTestVectorUnion targetFuzzySet sourceFuzzySet targetSetSize sourceSetSize
          timerStart timerEnd =
        (timerEnd - timerStart,
          some (scalarMap2 max target source (min targetSetSize sourceSetSize).toNat)) ∧
      0 ≤ timerEnd - timerStart) := by
  constructor
  · rcases targetFuzzySet with _ | target
    · simp [spartanTestVectorUnion]
    · rcases sourceFuzzySet with _ | source
      · simp [spartanTestVectorUnion]
      · by_cases hsz : targetSetSize ≤ 0 ∨ sourceSetSize ≤ 0
        · simp only [spartanTestVectorUnion, if_pos hsz]
          simp [hsz]
        · simp only [spartanTestVectorUnion, if_neg hsz, computeFuzzySetUnion, cleanView]
          constructor
          · intro hlt
            omega
          · intro hor
            rcases hor with h | h | h | h
            · exact absurd h (by simp)
            · exact absurd h (by simp)
            · exact absurd (Or.inl h) hsz
            · exact absurd (Or.inr h) hsz
  · intro target source htgt hsrc hpos1 hpos2 hlt hls
    subst htgt
    subst hsrc
    have hneg : ¬ (targetSetSize ≤ 0 ∨ sourceSetSize ≤ 0) := by omega
    simp only [spartanTestVectorUnion, if_neg hneg, computeFuzzySetUnion, cleanView]
    refine ⟨?_, by omega⟩
    rw [unionSets, chunk2_eq max target source _ (by omega) hlt hls]

/-- Witness for C9 on valid pointers and sizes with monotone clock
readings. -/
theorem c9_witness :
    (5 : Int) ≤ 9 ∧
    ((spartanTestVectorUnion (some [1, 2, 3]) (some [4, 0, 6]) 3 2 5 9).1 < 0 ↔
      (some ([1, 2, 3] : List ℚ) = none ∨ some ([4, 0, 6] : List ℚ) = none ∨
        (3 : Int) ≤ 0 ∨ (2 : Int) ≤ 0)) :=
  ⟨by decide,
   (c9_boundary_union_contract (some [1, 2, 3]) (some [4, 0, 6]) 3 2 5 9 (by decide)).1⟩

end Spartan
